import Mathlib

/-!
Verification of the Firestore remote-serializer core (serializer.cc) and the
streaming-reader protocol, via a shallow embedding in Lean.

The embedding follows the C++ source closely:
* `FieldValue` is the client's in-memory value model (`model::FieldValue`);
  object maps are represented the way `std::map<std::string, FieldValue>`
  stores them, as key-sorted association lists with unique keys.
* `WireValue` is `google_firestore_v1_Value`: the `which_value_type` tag plus
  the payload of the active union member.  Raw wire defects the decoder must
  tolerate (a boolean byte other than 0/1, a null bytes array for a string, an
  unrecognized tag) are representable.
* `Reader` is the nanopb reader's status channel: `fail` keeps the first
  failure (the C++ `Status::Update` keeps an existing error).
* Process-fatal paths (`HARD_FAIL` / `abort()`) are modelled as `Except.error`;
  recoverable validation failures go through the `Reader`.
-/

namespace Firestore

/-- Domain timestamp (`firebase::Timestamp`): seconds and nanoseconds. -/
structure Timestamp where
  seconds : Int
  nanoseconds : Int
deriving DecidableEq, Repr

/-- The zero-value sentinel `Timestamp()`. -/
def Timestamp.zero : Timestamp := ⟨0, 0⟩

/-- `model::DatabaseId`: the (project, database) pair a Serializer is bound to. -/
structure DatabaseId where
  projectId : String
  databaseId : String
deriving DecidableEq, Repr

/-- `model::DocumentKey`: wraps a document resource path (list of segments). -/
structure DocumentKey where
  path : List String
deriving DecidableEq, Repr

/-- `DocumentKey::IsDocumentKey`: non-empty path with an even segment count. -/
def DocumentKey.IsDocumentKey (p : List String) : Bool :=
  !p.isEmpty && p.length % 2 == 0

/-- `model::FieldValue`: closed tagged union.  The five variants after
`object` are the recognized-but-unimplemented tags of `FieldValue::Type`
(Double, Bytes, Reference, GeoPoint, Array); the serializer `abort()`s on them
before ever touching their payload, so the payload is not modelled. -/
inductive FieldValue where
  | null : FieldValue
  | boolean (b : Bool) : FieldValue
  | integer (i : Int) : FieldValue
  | str (s : String) : FieldValue
  | timestamp (t : Timestamp) : FieldValue
  | object (entries : List (String × FieldValue)) : FieldValue
  | doubleV : FieldValue
  | bytesV : FieldValue
  | referenceV : FieldValue
  | geoPointV : FieldValue
  | arrayV : FieldValue

/-- `google_firestore_v1_Value`: the wire tag (`which_value_type`) together
with the active payload.  `booleanValue` carries the raw payload byte (nanopb
may deliver a byte other than 0/1); `stringValue` and map keys are nullable
byte arrays (`pb_bytes_array_t*`); `unknownTag` stands for any
`which_value_type` the switch does not list. -/
inductive WireValue where
  | nullValue (v : Int) : WireValue
  | booleanValue (b : Nat) : WireValue
  | integerValue (i : Int) : WireValue
  | stringValue (s : Option String) : WireValue
  | timestampValue (seconds : Int) (nanos : Int) : WireValue
  | mapValue (fields : List (Option String × WireValue)) : WireValue
  | doubleValue : WireValue
  | bytesValue : WireValue
  | referenceValue : WireValue
  | geoPointValue : WireValue
  | arrayValue : WireValue
  | unknownTag (t : Nat) : WireValue

/-- The proto field number of each wire tag, used in failure messages. -/
def WireValue.tag : WireValue → Nat
  | .nullValue _ => 11
  | .booleanValue _ => 1
  | .integerValue _ => 2
  | .stringValue _ => 17
  | .timestampValue _ _ => 10
  | .mapValue _ => 6
  | .doubleValue => 3
  | .bytesValue => 18
  | .referenceValue => 5
  | .geoPointValue => 8
  | .arrayValue => 9
  | .unknownTag t => t

/-- Modelled from the spec: the nanopb `Reader`'s status channel ("reported
through a decode-result channel that carries a message").  `none` is ok;
`some msg` is a failure carrying the message of the FIRST `Fail` call (the
first validation failure propagates up as the decode's result). -/
structure Reader where
  status : Option String
deriving DecidableEq, Repr

/-- A fresh reader in the ok state. -/
def Reader.init : Reader := ⟨none⟩

/-- `Reader::Fail`: records the failure message unless a failure is already
recorded (first failure wins). -/
def Reader.fail (r : Reader) (msg : String) : Reader :=
  match r.status with
  | some m => ⟨some m⟩
  | none => ⟨some msg⟩

/-- `reader->status().ok()`. -/
def Reader.isOk (r : Reader) : Bool := r.status.isNone

/-- `Serializer::DecodeString`: a null bytes array decodes to the empty
string, otherwise the bytes are copied out. -/
def Serializer.DecodeString : Option String → String
  | none => ""
  | some s => s

/-- `Serializer::EncodeString`: always allocates a (non-null) bytes array. -/
def Serializer.EncodeString (s : String) : Option String := some s

/-- Modelled from the spec: `TimestampInternal::Min().seconds()`, the earliest
representable timestamp (0001-01-01T00:00:00Z); the class is not part of the
serializer source. -/
def TimestampInternal.minSeconds : Int := -62135596800

/-- Modelled from the spec: `TimestampInternal::Max().seconds()`, the latest
representable timestamp (9999-12-31T23:59:59Z). -/
def TimestampInternal.maxSeconds : Int := 253402300799

/-- `Serializer::DecodeTimestamp`: validates seconds against [Min, Max] and
nanos against [0, 999999999] before constructing the domain timestamp; on any
recorded failure (including one already present on entry) returns the
zero-value sentinel. -/
def Serializer.DecodeTimestamp (r : Reader) (seconds nanos : Int) :
    Reader × Timestamp :=
  let r1 :=
    if seconds < TimestampInternal.minSeconds then
      r.fail "Invalid message: timestamp beyond the earliest supported date"
    else if TimestampInternal.maxSeconds < seconds then
      r.fail "Invalid message: timestamp behond the latest supported date"
    else if nanos < 0 || nanos > 999999999 then
      r.fail "Invalid message: timestamp nanos must be between 0 and 999999999"
    else r
  if r1.isOk then (r1, ⟨seconds, nanos⟩) else (r1, Timestamp.zero)

/-- `Serializer::EncodeTimestamp`: a direct seconds/nanos field copy. -/
def Serializer.EncodeTimestamp (t : Timestamp) : Int × Int :=
  (t.seconds, t.nanoseconds)

/-- `absl::bit_cast<int8_t>` of the raw boolean payload byte. -/
def int8OfByte (b : Nat) : Int :=
  let m : Int := (b : Int) % 256
  if m < 128 then m else m - 256

/-- Lexicographic comparison of character lists: the element-wise,
first-difference, prefix-is-smaller order `std::less<std::string>` uses. -/
def charListLt : List Char → List Char → Bool
  | _, [] => false
  | [], _ :: _ => true
  | a :: as, b :: bs =>
    if a < b then true else if b < a then false else charListLt as bs

/-- The strict key order of `std::map<std::string, FieldValue>`. -/
def strLt (a b : String) : Bool := charListLt a.data b.data

/-- `std::map::operator[]` followed by assignment: insert in key-sorted
position, overwriting the value at an existing key. -/
def mapInsert (key : String) (val : FieldValue) :
    List (String × FieldValue) → List (String × FieldValue)
  | [] => [(key, val)]
  | (k, v) :: rest =>
    if strLt key k then (key, val) :: (k, v) :: rest
    else if key = k then (key, val) :: rest
    else (k, v) :: mapInsert key val rest

/-- `std::map::emplace`: insert in key-sorted position, keeping the existing
value when the key is already present. -/
def mapEmplace (key : String) (val : FieldValue) :
    List (String × FieldValue) → List (String × FieldValue)
  | [] => [(key, val)]
  | (k, v) :: rest =>
    if strLt key k then (key, val) :: (k, v) :: rest
    else if key = k then (k, v) :: rest
    else (k, v) :: mapEmplace key val rest

/-- The failure message of the `default` case of `DecodeFieldValue`. -/
def invalidTypeMsg (tag : Nat) : String :=
  "Invalid type while decoding FieldValue: " ++ toString tag

/-- The `HARD_FAIL` message for recognized-but-unimplemented wire tags. -/
def unhandledTagMsg (tag : Nat) : String :=
  "Unhandled message field number (tag): " ++ toString tag ++ "."

mutual

/-- `Serializer::EncodeFieldValue`.  `Except.error` models the `abort()` on
the unimplemented `FieldValue::Type` tags (a process-fatal failure). -/
def Serializer.EncodeFieldValue : FieldValue → Except String WireValue
  | .null => .ok (.nullValue 0)
  | .boolean b => .ok (.booleanValue (if b then 1 else 0))
  | .integer i => .ok (.integerValue i)
  | .str s => .ok (.stringValue (Serializer.EncodeString s))
  | .timestamp t =>
      .ok (.timestampValue (Serializer.EncodeTimestamp t).1
        (Serializer.EncodeTimestamp t).2)
  | .object entries => do
      let ws ← Serializer.EncodeMapEntries entries
      .ok (.mapValue ws)
  | .doubleV => .error "abort: unimplemented FieldValue type"
  | .bytesV => .error "abort: unimplemented FieldValue type"
  | .referenceV => .error "abort: unimplemented FieldValue type"
  | .geoPointV => .error "abort: unimplemented FieldValue type"
  | .arrayV => .error "abort: unimplemented FieldValue type"

/-- `EncodeMapValue`: encodes each entry of the (key-sorted) map in iteration
order as a (key bytes, encoded value) pair. -/
def Serializer.EncodeMapEntries :
    List (String × FieldValue) → Except String (List (Option String × WireValue))
  | [] => .ok []
  | (k, v) :: rest => do
      let w ← Serializer.EncodeFieldValue v
      let ws ← Serializer.EncodeMapEntries rest
      .ok ((Serializer.EncodeString k, w) :: ws)

end

mutual

/-- `Serializer::DecodeFieldValue`: the switch over `which_value_type`.
Recoverable validation failures call `Reader.fail` and still return a value;
the recognized-but-unimplemented tags `HARD_FAIL` (modelled as
`Except.error`); an unrecognized tag fails the reader and returns Null. -/
def Serializer.DecodeFieldValue (r : Reader) :
    WireValue → Except String (Reader × FieldValue)
  | .nullValue v =>
      .ok (if v ≠ 0 then
        r.fail "Input proto bytes cannot be parsed (invalid null value)"
      else r, .null)
  | .booleanValue b => .ok (r, .boolean (int8OfByte b ≠ 0))
  | .integerValue i => .ok (r, .integer i)
  | .stringValue s => .ok (r, .str (Serializer.DecodeString s))
  | .timestampValue seconds nanos =>
      let p := Serializer.DecodeTimestamp r seconds nanos
      .ok (p.1, .timestamp p.2)
  | .mapValue fields => do
      let p ← Serializer.DecodeMapEntries r fields []
      .ok (p.1, .object p.2)
  | .doubleValue => .error (unhandledTagMsg WireValue.doubleValue.tag)
  | .bytesValue => .error (unhandledTagMsg WireValue.bytesValue.tag)
  | .referenceValue => .error (unhandledTagMsg WireValue.referenceValue.tag)
  | .geoPointValue => .error (unhandledTagMsg WireValue.geoPointValue.tag)
  | .arrayValue => .error (unhandledTagMsg WireValue.arrayValue.tag)
  | .unknownTag t => .ok (r.fail (invalidTypeMsg t), .null)

/-- `DecodeMapValue`'s loop: for each entry, decode the key bytes and the
value, then `result[key] = value`.  There is no empty-key check and no
short-circuit on a failed reader. -/
def Serializer.DecodeMapEntries (r : Reader)
    (fields : List (Option String × WireValue))
    (acc : List (String × FieldValue)) :
    Except String (Reader × List (String × FieldValue)) :=
  match fields with
  | [] => .ok (r, acc)
  | (k, w) :: rest => do
      let key := Serializer.DecodeString k
      let p ← Serializer.DecodeFieldValue r w
      Serializer.DecodeMapEntries p.1 rest (mapInsert key p.2 acc)

end

/-- The failure message of `DecodeFieldsEntry` for an empty key. -/
def emptyKeyMsg : String :=
  "Invalid message: Empty key while decoding a Map field value."

/-- `DecodeFieldsEntry`: decodes one `Document.fields` entry; an empty key
fails the reader and yields the default pair (empty key, Null). -/
def Serializer.DecodeFieldsEntry (r : Reader) (key : Option String)
    (value : WireValue) : Except String (Reader × (String × FieldValue)) := do
  let k := Serializer.DecodeString key
  let p ← Serializer.DecodeFieldValue r value
  if k.isEmpty then
    .ok (p.1.fail emptyKeyMsg, ("", FieldValue.null))
  else
    .ok (p.1, (k, p.2))

/-- `DecodeFields`: `emplace`s every decoded entry into the result map; the
loop does not stop when the reader has failed. -/
def Serializer.DecodeFields (r : Reader) :
    List (Option String × WireValue) → List (String × FieldValue) →
    Except String (Reader × List (String × FieldValue))
  | [], acc => .ok (r, acc)
  | (k, w) :: rest, acc => do
      let p ← Serializer.DecodeFieldsEntry r k w
      Serializer.DecodeFields p.1 rest (mapEmplace p.2.1 p.2.2 acc)

/-- The keys of an association list form a strictly increasing chain in the
`std::map` key order (the representation invariant of `ObjectValue::Map`). -/
def sortedKeys : List (String × FieldValue) → Bool
  | [] => true
  | [_] => true
  | (k1, _) :: (k2, v2) :: rest =>
    strLt k1 k2 && sortedKeys ((k2, v2) :: rest)

/-- A timestamp whose fields lie in the representable range. -/
def validTimestamp (t : Timestamp) : Bool :=
  decide (TimestampInternal.minSeconds ≤ t.seconds) &&
  decide (t.seconds ≤ TimestampInternal.maxSeconds) &&
  decide (0 ≤ t.nanoseconds) && decide (t.nanoseconds ≤ 999999999)

mutual

/-- The field values the serializer implements: tag one of {Null, Boolean,
Integer, String, Timestamp, Object}, all nested values likewise, every
timestamp in range, and every object map a well-formed `std::map` (key-sorted
chain). -/
def ValidFieldValue : FieldValue → Bool
  | .null => true
  | .boolean _ => true
  | .integer _ => true
  | .str _ => true
  | .timestamp t => validTimestamp t
  | .object entries => sortedKeys entries && ValidEntries entries
  | .doubleV => false
  | .bytesV => false
  | .referenceV => false
  | .geoPointV => false
  | .arrayV => false

/-- All values of an object's entries are valid. -/
def ValidEntries : List (String × FieldValue) → Bool
  | [] => true
  | (_, v) :: rest => ValidFieldValue v && ValidEntries rest

end

/-- Modelled from the spec: `ResourcePath::CanonicalString` joins the segments
with the `/` separator (at the character level). -/
def joinChars : List (List Char) → List Char
  | [] => []
  | [x] => x
  | x :: y :: rest => x ++ '/' :: joinChars (y :: rest)

/-- Modelled from the spec: splitting a resource-name string on the `/`
separator (`ResourcePath::FromString`); `acc` holds the reversed characters of
the segment being scanned. -/
def splitChars : List Char → List Char → List (List Char)
  | [], acc => [acc.reverse]
  | c :: cs, acc =>
    if c = '/' then acc.reverse :: splitChars cs []
    else splitChars cs (c :: acc)

/-- `ResourcePath::CanonicalString` on a segment list. -/
def ResourcePath.canonicalString (p : List String) : String :=
  String.mk (joinChars (p.map String.data))

/-- `ResourcePath::FromString`. -/
def ResourcePath.fromString (s : String) : List String :=
  (splitChars s.data []).map String.mk

/-- `EncodeDatabaseId`: the four-segment database root. -/
def EncodeDatabaseId (d : DatabaseId) : List String :=
  ["projects", d.projectId, "databases", d.databaseId]

/-- `EncodeResourceName`: root + "documents" + local path, canonical-joined. -/
def EncodeResourceName (d : DatabaseId) (path : List String) : String :=
  ResourcePath.canonicalString (EncodeDatabaseId d ++ "documents" :: path)

/-- `IsValidResourceName`: at least 4 segments with segment 0 "projects" and
segment 2 "databases". -/
def IsValidResourceName (p : List String) : Bool :=
  decide (4 ≤ p.length) && p.getD 0 "" == "projects" && p.getD 2 "" == "databases"

/-- Message of `DecodeResourceName` for an invalid name. -/
def invalidKeyMsg (s : String) : String :=
  "Tried to deserialize an invalid key " ++ s

/-- Message of `ExtractLocalPathFromResourceName` for a missing local path. -/
def extractInvalidKeyMsg (s : String) : String :=
  "Tried to deserialize invalid key " ++ s

/-- Message of `DecodeKey` for a resource with fewer than 5 segments. -/
def tooFewSegmentsMsg (name : String) : String :=
  "Attempted to decode invalid key: " ++ name ++
    ". Should have at least 5 segments."

/-- Message of `DecodeKey` for a project mismatch, naming expected and found. -/
def projectMismatchMsg (expected found name : String) : String :=
  "Tried to deserialize key from different project. Expected: " ++ expected ++
    ". Found: " ++ found ++ ". (Full key: " ++ name ++ ")"

/-- Message of `DecodeKey` for a database mismatch, naming expected and found. -/
def databaseMismatchMsg (expected found name : String) : String :=
  "Tried to deserialize key from different database. Expected: " ++ expected ++
    ". Found: " ++ found ++ ". (Full key: " ++ name ++ ")"

/-- Message of `DecodeKey` for a local path that is not a document key. -/
def invalidDocKeyMsg (s : String) : String :=
  "Invalid document key path: " ++ s

/-- `DecodeResourceName`: parse and validate the database prefix. -/
def DecodeResourceName (r : Reader) (encoded : String) :
    Reader × List String :=
  let resource := ResourcePath.fromString encoded
  if !IsValidResourceName resource then
    (r.fail (invalidKeyMsg (ResourcePath.canonicalString resource)), resource)
  else (r, resource)

/-- `ExtractLocalPathFromResourceName`: requires more than 4 segments with
segment 4 "documents"; returns the remainder after the first 5. -/
def ExtractLocalPathFromResourceName (r : Reader) (resource : List String) :
    Reader × List String :=
  if resource.length ≤ 4 || resource.getD 4 "" != "documents" then
    (r.fail (extractInvalidKeyMsg (ResourcePath.canonicalString resource)), [])
  else (r, resource.drop 5)

/-- `Serializer::EncodeKey`. -/
def Serializer.EncodeKey (d : DatabaseId) (k : DocumentKey) : String :=
  EncodeResourceName d k.path

/-- The tail of `Serializer::DecodeKey` after the prefix/segment checks:
extract the local path, validate it with `IsDocumentKey`, and return the
decoded key only when the reader is still ok (else the empty key). -/
def decodeKeyTail (r2 : Reader) (resource : List String) :
    Reader × DocumentKey :=
  let ex := ExtractLocalPathFromResourceName r2 resource
  let r4 :=
    if !DocumentKey.IsDocumentKey ex.2 then
      ex.1.fail (invalidDocKeyMsg (ResourcePath.canonicalString ex.2))
    else ex.1
  if r4.isOk then (r4, ⟨ex.2⟩) else (r4, ⟨[]⟩)

/-- `Serializer::DecodeKey`: decode the resource name, verify the segment
count and the bound project/database ids, extract and validate the local
path; on any recorded failure return an empty `DocumentKey`. -/
def Serializer.DecodeKey (d : DatabaseId) (r0 : Reader) (name : String) :
    Reader × DocumentKey :=
  let pr := DecodeResourceName r0 name
  let resource := pr.2
  let r2 :=
    if resource.length < 5 then pr.1.fail (tooFewSegmentsMsg name)
    else if resource.getD 1 "" ≠ d.projectId then
      pr.1.fail (projectMismatchMsg d.projectId (resource.getD 1 "") name)
    else if resource.getD 3 "" ≠ d.databaseId then
      pr.1.fail (databaseMismatchMsg d.databaseId (resource.getD 3 "") name)
    else pr.1
  decodeKeyTail r2 resource

/-- The wire tags listed in the decoder's switch as recognized but not yet
implemented (the `HARD_FAIL` group). -/
def recognizedUnimplemented : WireValue → Bool
  | .doubleValue => true
  | .bytesValue => true
  | .referenceValue => true
  | .geoPointValue => true
  | .arrayValue => true
  | _ => false

/-- The `FieldValue::Type` tags the encoder does not implement (the `abort()`
group in `EncodeFieldValue`). -/
def unimplementedDomainTag : FieldValue → Bool
  | .doubleV => true
  | .bytesV => true
  | .referenceV => true
  | .geoPointV => true
  | .arrayV => true
  | _ => false

/-- A concrete nested value used to witness the round-trip property. -/
def sampleValue : FieldValue :=
  .object [("a", .boolean true),
           ("b", .object [("x", .integer (-7)), ("y", .str "hello")]),
           ("c", .timestamp ⟨1414425600, 123⟩)]

namespace GrpcStreamingReader

/-- Modelled from the spec: the streaming reader's lifecycle states
(NotStarted → Started → Finished, Finished terminal). -/
inductive State where
  | notStarted : State
  | started : State
  | finished : State
deriving DecidableEq, Repr

/-- Modelled from the spec: the terminal callback's argument — either the
accumulated response buffers (transport status ok) or the mapped domain error
code. -/
inductive Outcome where
  | success (responses : List String) : Outcome
  | failure (code : Nat) : Outcome
deriving DecidableEq, Repr

/-- Modelled from the spec: the completions the transport delivers — Write
success/failure, Read success (with a buffer) / failure (end-of-stream), and
Finish completion carrying the transport status. -/
inductive Event where
  | writeOk : Event
  | writeFail : Event
  | readOk (buf : String) : Event
  | readFail : Event
  | finishDone (ok : Bool) (code : Nat) : Event
deriving DecidableEq, Repr

/-- Modelled from the spec: a streaming reader's observable state — lifecycle
state, the accumulator of successfully read buffers, and the log of terminal
callback invocations. -/
structure Machine where
  state : State
  responses : List String
  callbackLog : List Outcome
deriving DecidableEq, Repr

/-- A reader on which `Start` has not yet been called. -/
def Machine.initial : Machine := ⟨.notStarted, [], []⟩

/-- Modelled from the spec: `Start` transitions NotStarted → Started. -/
def Machine.start (m : Machine) : Machine := { m with state := .started }

/-- Modelled from the spec, §4.5: dispatch of one completion once Started.
Write success issues a Read (no observable change); Read success appends the
buffer to the accumulator and issues the next Read; Read failure (and Write
failure) issue Finish; Finish completion transitions to Finished and invokes
the terminal callback exactly once — with the accumulated buffers when the
transport status is ok, with the mapped error and no responses otherwise.  In
the Finished state every event is a no-op. -/
def step (m : Machine) (e : Event) : Machine :=
  match m.state, e with
  | .started, .readOk buf => { m with responses := m.responses ++ [buf] }
  | .started, .finishDone ok code =>
      { state := .finished
        responses := m.responses
        callbackLog := m.callbackLog ++
          [if ok then Outcome.success m.responses else Outcome.failure code] }
  | _, _ => m

/-- Run a sequence of delivered completions. -/
def run (m : Machine) (events : List Event) : Machine :=
  events.foldl step m

/-- The trace of a natural completion: Write ok, the given successful Reads
in order, the end-of-stream Read failure, then Finish with an ok status. -/
def naturalTrace (bufs : List String) : List Event :=
  Event.writeOk :: bufs.map Event.readOk ++ [Event.readFail, Event.finishDone true 0]

end GrpcStreamingReader

/-! ## Helper lemmas -/

theorem Reader.status_init : Reader.init.status = none := rfl

theorem Reader.fail_isOk (r : Reader) (msg : String) :
    (r.fail msg).isOk = false := by
  cases r with
  | mk st => cases st <;> rfl

theorem Reader.fail_of_failed (r : Reader) (msg m : String)
    (h : r.status = some m) : r.fail msg = r := by
  cases r with
  | mk st => cases st <;> simp_all [Reader.fail]

theorem Reader.status_fail_of_failed (r : Reader) (msg m : String)
    (h : r.status = some m) : (r.fail msg).status = some m := by
  rw [Reader.fail_of_failed r msg m h]; exact h

theorem Reader.fail_of_ok (r : Reader) (msg : String) (h : r.status = none) :
    r.fail msg = ⟨some msg⟩ := by
  cases r with
  | mk st => cases st <;> simp_all [Reader.fail]

theorem Reader.eq_init_of_ok (r : Reader) (h : r.status = none) :
    r = Reader.init := by
  cases r with
  | mk st => cases st <;> simp_all [Reader.init]

theorem Reader.isOk_iff (r : Reader) : r.isOk = true ↔ r.status = none := by
  cases r with
  | mk st => cases st <;> simp [Reader.isOk]

theorem except_ok_bind {α β : Type} (a : α) (f : α → Except String β) :
    (Except.ok a : Except String α) >>= f = f a := rfl

theorem except_error_bind {α β : Type} (e : String)
    (f : α → Except String β) :
    (Except.error e : Except String α) >>= f = .error e := rfl

theorem charListLt_irrefl (l : List Char) : charListLt l l = false := by
  induction l with
  | nil => rfl
  | cons a as ih => simp [charListLt, lt_irrefl, ih]

theorem charListLt_asymm (a b : List Char) (h : charListLt a b = true) :
    charListLt b a = false := by
  induction a generalizing b with
  | nil =>
    cases b with
    | nil => simp [charListLt] at h ⊢
    | cons y ys => rfl
  | cons x xs ih =>
    cases b with
    | nil => simp [charListLt] at h
    | cons y ys =>
      by_cases hxy : x < y
      · simp [charListLt, hxy, lt_asymm hxy, lt_irrefl]
      · by_cases hyx : y < x
        · simp [charListLt, hxy, hyx] at h
        · simp only [charListLt, if_neg hxy, if_neg hyx] at h
          simp [charListLt, hxy, hyx, ih ys h]

theorem charListLt_trans (a b c : List Char) (hab : charListLt a b = true)
    (hbc : charListLt b c = true) : charListLt a c = true := by
  induction a generalizing b c with
  | nil =>
    cases b with
    | nil => simp [charListLt] at hab
    | cons y ys =>
      cases c with
      | nil => simp [charListLt] at hbc
      | cons z zs => rfl
  | cons x xs ih =>
    cases b with
    | nil => simp [charListLt] at hab
    | cons y ys =>
      cases c with
      | nil => simp [charListLt] at hbc
      | cons z zs =>
        by_cases hxy : x < y
        · by_cases hyz : y < z
          · simp [charListLt, lt_trans hxy hyz]
          · by_cases hzy : z < y
            · simp [charListLt, hyz, hzy] at hbc
            · have hyz' : y = z := le_antisymm (not_lt.mp hzy) (not_lt.mp hyz)
              simp [charListLt, hyz' ▸ hxy]
        · by_cases hyx : y < x
          · simp [charListLt, hxy, hyx] at hab
          · have hxy' : x = y := le_antisymm (not_lt.mp hyx) (not_lt.mp hxy)
            subst hxy'
            simp only [charListLt, if_neg hxy, if_neg hyx] at hab
            by_cases hyz : x < z
            · simp [charListLt, hyz]
            · by_cases hzy : z < x
              · simp [charListLt, hyz, hzy] at hbc
              · simp only [charListLt, if_neg hyz, if_neg hzy] at hbc ⊢
                exact ih ys zs hab hbc

theorem charListLt_eq_of_not_lt (a b : List Char)
    (h1 : charListLt a b = false) (h2 : charListLt b a = false) : a = b := by
  induction a generalizing b with
  | nil =>
    cases b with
    | nil => rfl
    | cons y ys => simp [charListLt] at h1
  | cons x xs ih =>
    cases b with
    | nil => simp [charListLt] at h2
    | cons y ys =>
      by_cases hxy : x < y
      · simp [charListLt, hxy] at h1
      · by_cases hyx : y < x
        · simp [charListLt, hyx, lt_asymm hyx] at h2
        · have hxy' : x = y := le_antisymm (not_lt.mp hyx) (not_lt.mp hxy)
          simp only [charListLt, if_neg hxy, if_neg hyx] at h1
          simp only [charListLt, if_neg hyx, if_neg hxy] at h2
          rw [hxy', ih ys h1 h2]

theorem strLt_irrefl (s : String) : strLt s s = false :=
  charListLt_irrefl s.data

theorem strLt_asymm (a b : String) (h : strLt a b = true) :
    strLt b a = false :=
  charListLt_asymm a.data b.data h

theorem strLt_trans (a b c : String) (hab : strLt a b = true)
    (hbc : strLt b c = true) : strLt a c = true :=
  charListLt_trans a.data b.data c.data hab hbc

theorem strLt_eq_of_not_lt (a b : String)
    (h1 : strLt a b = false) (h2 : strLt b a = false) : a = b := by
  cases a with
  | mk da =>
    cases b with
    | mk db => exact congrArg String.mk (charListLt_eq_of_not_lt da db h1 h2)

theorem strLt_ne (a b : String) (h : strLt a b = true) : a ≠ b := by
  intro he
  subst he
  rw [strLt_irrefl] at h
  exact Bool.false_ne_true h

/-! ## Claim C7: timestamp range validation -/

/-- C7: decoding a wire Timestamp whose seconds field is below the minimum,
above the maximum, or whose nanos field is outside [0, 999999999], fails the
reader and returns the zero-value sentinel `Timestamp()`; decoding an
in-range timestamp returns `Timestamp{seconds, nanos}` with the reader ok. -/
theorem c7_decodeTimestamp_range (s n : Int) :
    ((s < TimestampInternal.minSeconds ∨ TimestampInternal.maxSeconds < s ∨
        n < 0 ∨ 999999999 < n) →
      (Serializer.DecodeTimestamp Reader.init s n).1.isOk = false ∧
      (Serializer.DecodeTimestamp Reader.init s n).2 = Timestamp.zero) ∧
    (TimestampInternal.minSeconds ≤ s → s ≤ TimestampInternal.maxSeconds →
      0 ≤ n → n ≤ 999999999 →
      Serializer.DecodeTimestamp Reader.init s n = (Reader.init, ⟨s, n⟩)) := by
  constructor
  · intro hbad
    simp only [Serializer.DecodeTimestamp]
    rcases hbad with h | h | h | h
    · simp [h, Reader.fail, Reader.init, Reader.isOk]
    · by_cases h1 : s < TimestampInternal.minSeconds <;>
        simp [h, h1, Reader.fail, Reader.init, Reader.isOk]
    · have h1 : ¬ s < TimestampInternal.minSeconds ∨
          s < TimestampInternal.minSeconds := (em _).symm
      by_cases hlo : s < TimestampInternal.minSeconds
      · simp [hlo, Reader.fail, Reader.init, Reader.isOk]
      · by_cases hhi : TimestampInternal.maxSeconds < s <;>
          simp [hlo, hhi, h, Reader.fail, Reader.init, Reader.isOk]
    · by_cases hlo : s < TimestampInternal.minSeconds
      · simp [hlo, Reader.fail, Reader.init, Reader.isOk]
      · by_cases hhi : TimestampInternal.maxSeconds < s <;>
          simp [hlo, hhi, h, Reader.fail, Reader.init, Reader.isOk]
  · intro h1 h2 h3 h4
    simp [Serializer.DecodeTimestamp, not_lt.mpr h1, not_lt.mpr h2,
      not_lt.mpr h3, not_lt.mpr h4, Reader.init, Reader.isOk]

/-- Witness for C7 at concrete inputs: seconds one below the minimum fails
with the sentinel; nanos 10^9 fails; the in-range pair (5, 7) decodes. -/
theorem c7_witness :
    ((Serializer.DecodeTimestamp Reader.init (-62135596801) 0).1.isOk = false ∧
      (Serializer.DecodeTimestamp Reader.init (-62135596801) 0).2 =
        Timestamp.zero) ∧
    ((Serializer.DecodeTimestamp Reader.init 5 1000000000).1.isOk = false ∧
      (Serializer.DecodeTimestamp Reader.init 5 1000000000).2 =
        Timestamp.zero) ∧
    Serializer.DecodeTimestamp Reader.init 5 7 = (Reader.init, ⟨5, 7⟩) :=
  ⟨(c7_decodeTimestamp_range (-62135596801) 0).1 (Or.inl (by decide)),
   (c7_decodeTimestamp_range 5 1000000000).1
     (Or.inr (Or.inr (Or.inr (by decide)))),
   (c7_decodeTimestamp_range 5 7).2 (by decide) (by decide) (by decide)
     (by decide)⟩

/-! ## Claim C8: boolean payload byte -/

/-- C8: decoding a boolean-tagged wire value with raw payload byte `b` yields
`true` exactly when `b` is nonzero and `false` when it is zero; the byte is
compared as an integer (`absl::bit_cast<int8_t>`), never read as a C++ bool. -/
theorem c8_boolean_byte (b : Nat) (r : Reader) (hb : b < 256) :
    Serializer.DecodeFieldValue r (.booleanValue b) =
      .ok (r, .boolean (b != 0)) := by
  have hmod : (b : Int) % 256 = (b : Int) := by omega
  have hcast : (decide (int8OfByte b ≠ 0)) = (b != 0) := by
    simp only [int8OfByte, hmod]
    by_cases hz : b = 0
    · subst hz; simp
    · have hb0 : (b : Int) ≠ 0 := by exact_mod_cast hz
      by_cases hlt : (b : Int) < 128
      · simp [hlt, hb0, hz, bne]
      · have : (b : Int) - 256 ≠ 0 := by omega
        simp [hlt, this, hz, bne]
  simp [Serializer.DecodeFieldValue, hcast]

/-- Witness for C8: byte 2 decodes to `true`, byte 0 to `false`. -/
theorem c8_witness :
    Serializer.DecodeFieldValue Reader.init (.booleanValue 2) =
      .ok (Reader.init, .boolean true) ∧
    Serializer.DecodeFieldValue Reader.init (.booleanValue 0) =
      .ok (Reader.init, .boolean false) :=
  ⟨c8_boolean_byte 2 Reader.init (by decide),
   c8_boolean_byte 0 Reader.init (by decide)⟩

/-! ## Claim C2: unimplemented and unrecognized wire tags -/

/-- C2 counterexample: decoding a double-tagged wire value is a process-fatal
`HARD_FAIL` (modelled as `Except.error`), not a recoverable reader failure
with a returned value as the claim states. -/
theorem c2_counterexample :
    Serializer.DecodeFieldValue Reader.init WireValue.doubleValue =
      .error (unhandledTagMsg 3) := by
  simp [Serializer.DecodeFieldValue, WireValue.tag]

/-- C2 amended: the recognized-but-not-yet-implemented wire tags (Double,
Bytes, Reference, GeoPoint, Array) cause a process-fatal failure on decode,
just as encoding an unimplemented FieldValue tag is process-fatal; only an
unrecognized tag produces a recoverable decode error (the reader fails and a
Null value is still returned). -/
theorem c2_amended (w : WireValue) (v : FieldValue) (t : Nat) :
    (recognizedUnimplemented w = true →
      Serializer.DecodeFieldValue Reader.init w =
        .error (unhandledTagMsg w.tag)) ∧
    (Serializer.DecodeFieldValue Reader.init (.unknownTag t) =
      .ok (⟨some (invalidTypeMsg t)⟩, .null)) ∧
    (unimplementedDomainTag v = true →
      Serializer.EncodeFieldValue v =
        .error "abort: unimplemented FieldValue type") := by
  refine ⟨?_, ?_, ?_⟩
  · intro hw
    cases w <;> simp_all [recognizedUnimplemented] <;>
      simp [Serializer.DecodeFieldValue, WireValue.tag]
  · simp [Serializer.DecodeFieldValue, Reader.fail, Reader.init]
  · intro hv
    cases v <;> simp_all [unimplementedDomainTag] <;>
      simp [Serializer.EncodeFieldValue]

/-- Witness for C2 amended, at the bytes tag, unknown tag 99, and the Array
domain tag. -/
theorem c2_amended_witness :
    Serializer.DecodeFieldValue Reader.init WireValue.bytesValue =
      .error (unhandledTagMsg 18) ∧
    Serializer.DecodeFieldValue Reader.init (.unknownTag 99) =
      .ok (⟨some (invalidTypeMsg 99)⟩, .null) ∧
    Serializer.EncodeFieldValue FieldValue.arrayV =
      .error "abort: unimplemented FieldValue type" :=
  ⟨(c2_amended WireValue.bytesValue FieldValue.arrayV 99).1 rfl,
   (c2_amended WireValue.bytesValue FieldValue.arrayV 99).2.1,
   (c2_amended WireValue.bytesValue FieldValue.arrayV 99).2.2 rfl⟩

/-! ## Claim C5: empty map keys -/

/-- C5 counterexample: decoding a nested MapValue entry whose key is the
empty string does NOT fail — the reader stays ok and the empty-keyed entry is
kept, contradicting the claim that both decode paths reject empty keys. -/
theorem c5_counterexample :
    Serializer.DecodeMapEntries Reader.init [(some "", .nullValue 0)] [] =
      .ok (Reader.init, [("", FieldValue.null)]) ∧
    Reader.init.isOk = true := by
  constructor
  · simp [Serializer.DecodeMapEntries, Serializer.DecodeFieldValue,
      Serializer.DecodeString, mapInsert, except_ok_bind]
  · rfl

/-- C5 amended: decoding a Document `fields` entry (`DecodeFieldsEntry`) with
an empty key fails the reader and yields the default (empty key, Null) pair;
decoding a nested MapValue entry with an empty key does not fail — the entry
is kept in the decoded map with the reader untouched. -/
theorem c5_empty_key (w : WireValue) (v : FieldValue) (r : Reader)
    (h : Serializer.DecodeFieldValue r w = .ok (r, v)) :
    Serializer.DecodeFieldsEntry r (some "") w =
      .ok (r.fail emptyKeyMsg, ("", FieldValue.null)) ∧
    (r.fail emptyKeyMsg).isOk = false ∧
    Serializer.DecodeMapEntries r [(some "", w)] [] = .ok (r, [("", v)]) := by
  have h0 : "".isEmpty = true := (String.isEmpty_iff "").mpr rfl
  refine ⟨?_, Reader.fail_isOk r emptyKeyMsg, ?_⟩
  · simp [Serializer.DecodeFieldsEntry, Serializer.DecodeString, h,
      except_ok_bind, h0]
  · simp [Serializer.DecodeMapEntries, Serializer.DecodeString, h, mapInsert,
      except_ok_bind]

/-- Witness for C5 amended at a concrete integer-valued entry. -/
theorem c5_empty_key_witness :
    Serializer.DecodeFieldsEntry Reader.init (some "") (.integerValue 7) =
      .ok (Reader.init.fail emptyKeyMsg, ("", FieldValue.null)) ∧
    (Reader.init.fail emptyKeyMsg).isOk = false ∧
    Serializer.DecodeMapEntries Reader.init [(some "", .integerValue 7)] [] =
      .ok (Reader.init, [("", FieldValue.integer 7)]) :=
  c5_empty_key (.integerValue 7) (.integer 7) Reader.init
    (by simp [Serializer.DecodeFieldValue])

/-! ## Claim C10: duplicate keys -/

/-- C10: a wire object with two entries sharing the same non-empty key
decodes without error on both paths, and which entry survives depends on the
path: `DecodeMapValue` (`operator[]`) keeps the last occurrence, while
`DecodeFields` (`emplace`) keeps the first. -/
theorem c10_duplicate_keys (k : String) (hk : k ≠ "") (w1 w2 : WireValue)
    (v1 v2 : FieldValue) (r : Reader)
    (h1 : Serializer.DecodeFieldValue r w1 = .ok (r, v1))
    (h2 : Serializer.DecodeFieldValue r w2 = .ok (r, v2)) :
    Serializer.DecodeMapEntries r [(some k, w1), (some k, w2)] [] =
      .ok (r, [(k, v2)]) ∧
    Serializer.DecodeFields r [(some k, w1), (some k, w2)] [] =
      .ok (r, [(k, v1)]) := by
  have hne : k.isEmpty = false := by
    rw [Bool.eq_false_iff]
    intro hemp
    exact hk ((String.isEmpty_iff k).mp hemp)
  constructor
  · simp [Serializer.DecodeMapEntries, Serializer.DecodeString, h1, h2,
      mapInsert, strLt_irrefl, except_ok_bind]
  · simp [Serializer.DecodeFields, Serializer.DecodeFieldsEntry,
      Serializer.DecodeString, h1, h2, hne, mapEmplace, strLt_irrefl,
      except_ok_bind]

/-- Witness for C10 at key "a" with integer values 1 and 2. -/
theorem c10_witness :
    Serializer.DecodeMapEntries Reader.init
        [(some "a", .integerValue 1), (some "a", .integerValue 2)] [] =
      .ok (Reader.init, [("a", FieldValue.integer 2)]) ∧
    Serializer.DecodeFields Reader.init
        [(some "a", .integerValue 1), (some "a", .integerValue 2)] [] =
      .ok (Reader.init, [("a", FieldValue.integer 1)]) :=
  c10_duplicate_keys "a" (by decide) (.integerValue 1) (.integerValue 2)
    (.integer 1) (.integer 2) Reader.init
    (by simp [Serializer.DecodeFieldValue])
    (by simp [Serializer.DecodeFieldValue])

/-! ## Failure preservation (first error wins) -/

theorem decodeTimestamp_keeps_failure (r : Reader) (s n : Int) (m : String)
    (hm : r.status = some m) :
    (Serializer.DecodeTimestamp r s n).1.status = some m := by
  simp only [Serializer.DecodeTimestamp]
  split_ifs <;>
    simp [Reader.status_fail_of_failed _ _ m hm, hm]

mutual

theorem decodeValue_keeps_failure (r : Reader) (w : WireValue) (m : String)
    (hm : r.status = some m) (p : Reader × FieldValue)
    (h : Serializer.DecodeFieldValue r w = .ok p) : p.1.status = some m := by
  cases w with
  | nullValue v =>
    simp only [Serializer.DecodeFieldValue, Except.ok.injEq] at h
    subst h
    split
    · exact Reader.status_fail_of_failed _ _ m hm
    · exact hm
  | booleanValue b =>
    simp only [Serializer.DecodeFieldValue, Except.ok.injEq] at h
    subst h
    exact hm
  | integerValue i =>
    simp only [Serializer.DecodeFieldValue, Except.ok.injEq] at h
    subst h
    exact hm
  | stringValue s =>
    simp only [Serializer.DecodeFieldValue, Except.ok.injEq] at h
    subst h
    exact hm
  | timestampValue s n =>
    simp only [Serializer.DecodeFieldValue, Except.ok.injEq] at h
    subst h
    exact decodeTimestamp_keeps_failure r s n m hm
  | mapValue fields =>
    rw [Serializer.DecodeFieldValue] at h
    cases hq : Serializer.DecodeMapEntries r fields [] with
    | error e => rw [hq] at h; exact absurd h (by simp [except_error_bind])
    | ok q =>
      rw [hq, except_ok_bind] at h
      have hq1 := decodeEntries_keeps_failure r fields [] m hm q hq
      simp only [Except.ok.injEq] at h
      subst h
      exact hq1
  | doubleValue => exact absurd h (by simp [Serializer.DecodeFieldValue])
  | bytesValue => exact absurd h (by simp [Serializer.DecodeFieldValue])
  | referenceValue => exact absurd h (by simp [Serializer.DecodeFieldValue])
  | geoPointValue => exact absurd h (by simp [Serializer.DecodeFieldValue])
  | arrayValue => exact absurd h (by simp [Serializer.DecodeFieldValue])
  | unknownTag t =>
    simp only [Serializer.DecodeFieldValue, Except.ok.injEq] at h
    subst h
    exact Reader.status_fail_of_failed _ _ m hm

theorem decodeEntries_keeps_failure (r : Reader)
    (fields : List (Option String × WireValue))
    (acc : List (String × FieldValue)) (m : String) (hm : r.status = some m)
    (p : Reader × List (String × FieldValue))
    (h : Serializer.DecodeMapEntries r fields acc = .ok p) :
    p.1.status = some m := by
  cases fields with
  | nil =>
    simp only [Serializer.DecodeMapEntries, Except.ok.injEq] at h
    subst h
    exact hm
  | cons f rest =>
    rcases f with ⟨k, w⟩
    rw [Serializer.DecodeMapEntries] at h
    cases hq : Serializer.DecodeFieldValue r w with
    | error e => rw [hq] at h; exact absurd h (by simp [except_error_bind])
    | ok q =>
      rw [hq, except_ok_bind] at h
      have hq1 := decodeValue_keeps_failure r w m hm q hq
      exact decodeEntries_keeps_failure q.1 rest
        (mapInsert (Serializer.DecodeString k) q.2 acc) m hq1 p h

end

theorem decodeFieldsEntry_keeps_failure (r : Reader) (k : Option String)
    (w : WireValue) (m : String) (hm : r.status = some m)
    (q : Reader × (String × FieldValue))
    (h : Serializer.DecodeFieldsEntry r k w = .ok q) : q.1.status = some m := by
  rw [Serializer.DecodeFieldsEntry] at h
  cases hq : Serializer.DecodeFieldValue r w with
  | error e => rw [hq] at h; exact absurd h (by simp [except_error_bind])
  | ok p =>
    rw [hq, except_ok_bind] at h
    have hp1 := decodeValue_keeps_failure r w m hm p hq
    split at h <;> simp only [Except.ok.injEq] at h <;> subst h
    · exact Reader.status_fail_of_failed _ _ m hp1
    · exact hp1

theorem decodeFields_keeps_failure
    (fields : List (Option String × WireValue)) :
    ∀ (r : Reader) (acc : List (String × FieldValue)) (m : String),
      r.status = some m →
      ∀ p, Serializer.DecodeFields r fields acc = .ok p →
        p.1.status = some m := by
  induction fields with
  | nil =>
    intro r acc m hm p h
    simp only [Serializer.DecodeFields, Except.ok.injEq] at h
    subst h
    exact hm
  | cons f rest ih =>
    intro r acc m hm p h
    rcases f with ⟨k, w⟩
    rw [Serializer.DecodeFields] at h
    cases hq : Serializer.DecodeFieldsEntry r k w with
    | error e => rw [hq] at h; exact absurd h (by simp [except_error_bind])
    | ok q =>
      rw [hq, except_ok_bind] at h
      have hq1 := decodeFieldsEntry_keeps_failure r k w m hm q hq
      exact ih q.1 (mapEmplace q.2.1 q.2.2 acc) m hq1 p h

/-! ## Claim C6: short-circuit on first failure -/

/-- C6 counterexample: in a Document fields message whose first entry has an
empty key, the decode fails on that entry, yet the second entry is still
decoded and accumulated into the result map afterwards — decoding is not
short-circuited by the first validation failure. -/
theorem c6_counterexample :
    Serializer.DecodeFields Reader.init
        [(some "", .integerValue 1), (some "a", .integerValue 2)] [] =
      .ok (⟨some emptyKeyMsg⟩,
        [("", FieldValue.null), ("a", FieldValue.integer 2)]) := by
  have h0 : "".isEmpty = true := (String.isEmpty_iff "").mpr rfl
  have ha : "a".isEmpty = false := by
    rw [Bool.eq_false_iff]
    intro hemp
    exact absurd ((String.isEmpty_iff _).mp hemp) (by decide)
  simp [Serializer.DecodeFields, Serializer.DecodeFieldsEntry,
    Serializer.DecodeFieldValue, Serializer.DecodeString, mapEmplace,
    except_ok_bind, h0, ha, strLt, charListLt, Reader.fail, Reader.init]

/-- C6 amended: the first validation failure during a decode propagates up as
the decode's result — the reader keeps the first failure message through all
remaining decoding — but it does not short-circuit that decoding: the
remaining entries are still decoded and accumulated. -/
theorem c6_first_failure (w : WireValue) (v : FieldValue)
    (h : Serializer.DecodeFieldValue Reader.init w = .ok (Reader.init, v))
    (rest : List (Option String × WireValue))
    (acc : List (String × FieldValue))
    (p : Reader × List (String × FieldValue))
    (hrun : Serializer.DecodeFields Reader.init ((some "", w) :: rest) acc =
      .ok p) :
    p.1.status = some emptyKeyMsg ∧
    Serializer.DecodeFields ⟨some emptyKeyMsg⟩ rest
      (mapEmplace "" FieldValue.null acc) = .ok p := by
  have h0 : "".isEmpty = true := (String.isEmpty_iff "").mpr rfl
  have hentry : Serializer.DecodeFieldsEntry Reader.init (some "") w =
      .ok (⟨some emptyKeyMsg⟩, ("", FieldValue.null)) := by
    simp [Serializer.DecodeFieldsEntry, Serializer.DecodeString, h,
      except_ok_bind, h0, Reader.fail_of_ok Reader.init emptyKeyMsg rfl]
  rw [Serializer.DecodeFields, hentry, except_ok_bind] at hrun
  exact ⟨decodeFields_keeps_failure rest ⟨some emptyKeyMsg⟩
    (mapEmplace "" FieldValue.null acc) emptyKeyMsg rfl p hrun, hrun⟩

/-- Witness for C6 amended: after the empty-key failure on the first entry,
the run continues over the second entry and the final status is still the
first (empty-key) failure. -/
theorem c6_first_failure_witness :
    (⟨some emptyKeyMsg⟩ : Reader) =
      (⟨some emptyKeyMsg⟩,
        [("", FieldValue.null), ("a", FieldValue.integer 2)]).1 ∧
    ((⟨some emptyKeyMsg⟩,
        [("", FieldValue.null), ("a", FieldValue.integer 2)]) :
      Reader × List (String × FieldValue)).1.status = some emptyKeyMsg ∧
    Serializer.DecodeFields ⟨some emptyKeyMsg⟩ [(some "a", .integerValue 2)]
        (mapEmplace "" FieldValue.null []) =
      .ok (⟨some emptyKeyMsg⟩,
        [("", FieldValue.null), ("a", FieldValue.integer 2)]) := by
  have happ := c6_first_failure (.integerValue 1) (.integer 1)
    (by simp [Serializer.DecodeFieldValue])
    [(some "a", .integerValue 2)] []
    (⟨some emptyKeyMsg⟩, [("", FieldValue.null), ("a", FieldValue.integer 2)])
    (by
      have h0 : "".isEmpty = true := (String.isEmpty_iff "").mpr rfl
      have ha : "a".isEmpty = false := by
        rw [Bool.eq_false_iff]
        intro hemp
        exact absurd ((String.isEmpty_iff _).mp hemp) (by decide)
      simp [Serializer.DecodeFields, Serializer.DecodeFieldsEntry,
        Serializer.DecodeFieldValue, Serializer.DecodeString, mapEmplace,
        except_ok_bind, h0, ha, strLt, charListLt, Reader.fail, Reader.init])
  exact ⟨rfl, happ.1, happ.2⟩

/-! ## Claim C9: natural completion of the streaming reader -/

theorem run_readOks (bufs : List String) :
    ∀ (acc : List String) (log : List GrpcStreamingReader.Outcome),
      GrpcStreamingReader.run ⟨.started, acc, log⟩
          (bufs.map GrpcStreamingReader.Event.readOk) =
        ⟨.started, acc ++ bufs, log⟩ := by
  induction bufs with
  | nil =>
    intro acc log
    simp [GrpcStreamingReader.run]
  | cons b bs ih =>
    intro acc log
    show GrpcStreamingReader.run ⟨.started, acc ++ [b], log⟩
        (bs.map GrpcStreamingReader.Event.readOk) = _
    rw [ih]
    simp

/-- C9: a started streaming reader that completes naturally — Write ok, the
given successful Reads, the end-of-stream Read failure, then Finish with an
ok transport status — ends Finished with the terminal callback invoked
exactly once, via the success channel only, carrying the read buffers in the
order the Reads succeeded. -/
theorem c9_natural_completion (bufs : List String) :
    GrpcStreamingReader.run GrpcStreamingReader.Machine.initial.start
        (GrpcStreamingReader.naturalTrace bufs) =
      ⟨.finished, bufs, [GrpcStreamingReader.Outcome.success bufs]⟩ := by
  show GrpcStreamingReader.run ⟨.started, [], []⟩
      (bufs.map GrpcStreamingReader.Event.readOk ++
        [GrpcStreamingReader.Event.readFail,
         GrpcStreamingReader.Event.finishDone true 0]) = _
  rw [GrpcStreamingReader.run, List.foldl_append]
  rw [show List.foldl GrpcStreamingReader.step ⟨.started, [], []⟩
      (bufs.map GrpcStreamingReader.Event.readOk) =
      GrpcStreamingReader.run ⟨.started, [], []⟩
        (bufs.map GrpcStreamingReader.Event.readOk) from rfl]
  rw [run_readOks bufs [] []]
  rfl

/-! ## Claim C1: field-value round trip -/

theorem sortedKeys_tail (k : String) (v : FieldValue)
    (rest : List (String × FieldValue))
    (h : sortedKeys ((k, v) :: rest) = true) : sortedKeys rest = true := by
  cases rest with
  | nil => rfl
  | cons q rest2 =>
    rcases q with ⟨k2, v2⟩
    simp only [sortedKeys, Bool.and_eq_true] at h
    exact h.2

theorem sortedKeys_head_lt (rest : List (String × FieldValue)) :
    ∀ (k : String) (v : FieldValue), sortedKeys ((k, v) :: rest) = true →
      ∀ q ∈ rest, strLt k q.1 = true := by
  induction rest with
  | nil =>
    intro k v _ q hq
    cases hq
  | cons p rest2 ih =>
    intro k v h q hq
    rcases p with ⟨k2, v2⟩
    simp only [sortedKeys, Bool.and_eq_true] at h
    rcases List.mem_cons.mp hq with he | hq2
    · subst he
      exact h.1
    · exact strLt_trans k k2 q.1 h.1 (ih k2 v2 h.2 q hq2)

theorem mapInsert_append (key : String) (val : FieldValue)
    (acc : List (String × FieldValue))
    (h : ∀ p ∈ acc, strLt p.1 key = true) :
    mapInsert key val acc = acc ++ [(key, val)] := by
  induction acc with
  | nil => rfl
  | cons p rest ih =>
    rcases p with ⟨k, v⟩
    have hk : strLt k key = true := h (k, v) (List.mem_cons_self _ _)
    have h1 : strLt key k = false := strLt_asymm k key hk
    have h2 : key ≠ k := fun he => (strLt_ne k key hk) he.symm
    simp [mapInsert, h1, h2,
      ih (fun p hp => h p (List.mem_cons_of_mem _ hp))]

theorem decodeTimestamp_ok (r : Reader) (hr : r.status = none) (s n : Int)
    (h1 : TimestampInternal.minSeconds ≤ s)
    (h2 : s ≤ TimestampInternal.maxSeconds)
    (h3 : 0 ≤ n) (h4 : n ≤ 999999999) :
    Serializer.DecodeTimestamp r s n = (r, ⟨s, n⟩) := by
  simp [Serializer.DecodeTimestamp, not_lt.mpr h1, not_lt.mpr h2,
    not_lt.mpr h3, not_lt.mpr h4, Reader.isOk, hr]

/-- Encoding any valid value succeeds, and decoding the result under any ok
reader returns exactly the original value, leaving the reader untouched
(paired with the analogous statement for object entry lists). -/
theorem encode_decode_ok (v : FieldValue) (hv : ValidFieldValue v = true) :
    ∃ w, Serializer.EncodeFieldValue v = .ok w ∧
      ∀ r, r.status = none →
        Serializer.DecodeFieldValue r w = .ok (r, v) := by
  refine Serializer.EncodeFieldValue.induct
    (fun v => ValidFieldValue v = true →
      ∃ w, Serializer.EncodeFieldValue v = .ok w ∧
        ∀ r, r.status = none →
          Serializer.DecodeFieldValue r w = .ok (r, v))
    (fun l => ValidEntries l = true → sortedKeys l = true →
      ∃ ws, Serializer.EncodeMapEntries l = .ok ws ∧
        ∀ (r : Reader) (acc : List (String × FieldValue)), r.status = none →
          (∀ p ∈ acc, ∀ q ∈ l, strLt p.1 q.1 = true) →
          Serializer.DecodeMapEntries r ws acc = .ok (r, acc ++ l))
    ?_ ?_ ?_ ?_ ?_ ?_ ?_ ?_ ?_ ?_ ?_ ?_ ?_ v hv
  · intro _
    exact ⟨.nullValue 0, by simp [Serializer.EncodeFieldValue],
      fun r hr => by simp [Serializer.DecodeFieldValue]⟩
  · intro b _
    refine ⟨.booleanValue (if b then 1 else 0),
      by simp [Serializer.EncodeFieldValue], fun r hr => ?_⟩
    cases b <;> simp [Serializer.DecodeFieldValue] <;> decide
  · intro i _
    exact ⟨.integerValue i, by simp [Serializer.EncodeFieldValue],
      fun r hr => by simp [Serializer.DecodeFieldValue]⟩
  · intro s _
    exact ⟨.stringValue (some s), by simp [Serializer.EncodeFieldValue,
      Serializer.EncodeString],
      fun r hr => by simp [Serializer.DecodeFieldValue,
        Serializer.DecodeString]⟩
  · intro t ht
    simp only [ValidFieldValue, validTimestamp, Bool.and_eq_true,
      decide_eq_true_eq] at ht
    refine ⟨.timestampValue t.seconds t.nanoseconds,
      by simp [Serializer.EncodeFieldValue, Serializer.EncodeTimestamp],
      fun r hr => ?_⟩
    simp [Serializer.DecodeFieldValue,
      decodeTimestamp_ok r hr t.seconds t.nanoseconds ht.1.1.1 ht.1.1.2
        ht.1.2 ht.2]
  · intro entries hrec hv2
    simp only [ValidFieldValue, Bool.and_eq_true] at hv2
    obtain ⟨ws, hws, hdec⟩ := hrec hv2.2 hv2.1
    refine ⟨.mapValue ws,
      by simp [Serializer.EncodeFieldValue, hws, except_ok_bind],
      fun r hr => ?_⟩
    rw [Serializer.DecodeFieldValue,
      hdec r [] hr (fun p hp => absurd hp (List.not_mem_nil p)),
      except_ok_bind]
    simp
  · intro hv2
    simp [ValidFieldValue] at hv2
  · intro hv2
    simp [ValidFieldValue] at hv2
  · intro hv2
    simp [ValidFieldValue] at hv2
  · intro hv2
    simp [ValidFieldValue] at hv2
  · intro hv2
    simp [ValidFieldValue] at hv2
  · intro _ _
    exact ⟨[], by simp [Serializer.EncodeMapEntries],
      fun r acc hr _ => by simp [Serializer.DecodeMapEntries]⟩
  · intro k v2 rest hv1 hrest hval hsort
    simp only [ValidEntries, Bool.and_eq_true] at hval
    obtain ⟨w, hw, hdw⟩ := hv1 hval.1
    obtain ⟨ws, hws, hdws⟩ := hrest hval.2 (sortedKeys_tail k v2 rest hsort)
    have hhead := sortedKeys_head_lt rest k v2 hsort
    refine ⟨(some k, w) :: ws,
      by simp [Serializer.EncodeMapEntries, hw, hws, except_ok_bind,
        Serializer.EncodeString], ?_⟩
    intro r acc hr hcond
    rw [Serializer.DecodeMapEntries, hdw r hr, except_ok_bind]
    have hins : mapInsert (Serializer.DecodeString (some k)) v2 acc =
        acc ++ [(k, v2)] :=
      mapInsert_append k v2 acc
        (fun p hp => hcond p hp (k, v2) (List.mem_cons_self _ _))
    rw [hins]
    rw [hdws r (acc ++ [(k, v2)]) hr ?_]
    · simp
    · intro p hp q hq
      rcases List.mem_append.mp hp with hp1 | hp2
      · exact hcond p hp1 q (List.mem_cons_of_mem _ hq)
      · have : p = (k, v2) := by simpa using hp2
        subst this
        exact hhead q hq

/-- C1: for every FieldValue whose tags are all implemented variants and
whose timestamps are in range, decoding the encoding yields the value back
with the decode reader still in the ok state. -/
theorem c1_fieldValue_roundtrip (v : FieldValue)
    (h : ValidFieldValue v = true) :
    (Serializer.EncodeFieldValue v).bind
        (Serializer.DecodeFieldValue Reader.init) =
      .ok (Reader.init, v) := by
  obtain ⟨w, hw, hd⟩ := encode_decode_ok v h
  rw [hw]
  exact hd Reader.init rfl

/-- Witness for C1 at a concrete nested object with boolean, integer, string
and timestamp leaves. -/
theorem c1_fieldValue_roundtrip_witness :
    ValidFieldValue sampleValue = true ∧
    (Serializer.EncodeFieldValue sampleValue).bind
        (Serializer.DecodeFieldValue Reader.init) =
      .ok (Reader.init, sampleValue) := by
  have hv : ValidFieldValue sampleValue = true := by
    simp [sampleValue, ValidFieldValue, ValidEntries, sortedKeys,
      validTimestamp, strLt, charListLt, TimestampInternal.minSeconds,
      TimestampInternal.maxSeconds]
  exact ⟨hv, c1_fieldValue_roundtrip sampleValue hv⟩

/-! ## Claims C3, C4: resource-name key codec -/

theorem splitChars_no_slash (x : List Char) :
    '/' ∉ x → ∀ (cs acc : List Char),
      splitChars (x ++ cs) acc = splitChars cs (x.reverse ++ acc) := by
  induction x with
  | nil =>
    intro _ cs acc
    simp
  | cons c x2 ih =>
    intro hx cs acc
    have hc : ¬ c = '/' := fun he => hx (he ▸ List.mem_cons_self c x2)
    calc splitChars ((c :: x2) ++ cs) acc
        = if c = '/' then acc.reverse :: splitChars (x2 ++ cs) []
          else splitChars (x2 ++ cs) (c :: acc) := rfl
      _ = splitChars (x2 ++ cs) (c :: acc) := if_neg hc
      _ = splitChars cs (x2.reverse ++ (c :: acc)) :=
          ih (fun hm => hx (List.mem_cons_of_mem c hm)) cs (c :: acc)
      _ = splitChars cs ((c :: x2).reverse ++ acc) := by simp

theorem splitChars_joinChars (segs : List (List Char)) :
    segs ≠ [] → (∀ s ∈ segs, '/' ∉ s) →
      splitChars (joinChars segs) [] = segs := by
  induction segs with
  | nil =>
    intro h _
    exact absurd rfl h
  | cons x rest ih =>
    intro _ hs
    have hx : '/' ∉ x := hs x (List.mem_cons_self _ _)
    cases rest with
    | nil =>
      rw [joinChars, show x = x ++ ([] : List Char) by simp,
        splitChars_no_slash x hx [] []]
      simp [splitChars]
    | cons y rest2 =>
      rw [joinChars, splitChars_no_slash x hx ('/' :: joinChars (y :: rest2)) []]
      simp only [splitChars, if_pos rfl]
      rw [ih (by simp) (fun s hsm => hs s (List.mem_cons_of_mem x hsm))]
      simp

theorem fromString_canonical (p : List String) (hne : p ≠ [])
    (hseg : ∀ s ∈ p, '/' ∉ s.data) :
    ResourcePath.fromString (ResourcePath.canonicalString p) = p := by
  show (splitChars (joinChars (p.map String.data)) []).map String.mk = p
  rw [splitChars_joinChars (p.map String.data) (by simpa using hne)
    (fun s hsm => by
      rcases List.mem_map.mp hsm with ⟨t, ht, rfl⟩
      exact hseg t ht)]
  rw [List.map_map]
  have hid : (String.mk ∘ String.data) = id := funext fun s => rfl
  rw [hid, List.map_id]

/-- C3: for a serializer bound to any DatabaseId, decoding the encoding of
any valid DocumentKey (non-empty even-length path, segments and ids free of
the `/` separator, which the flat resource-name string cannot represent)
returns the key with the reader still ok. -/
theorem c3_key_roundtrip (d : DatabaseId) (k : DocumentKey)
    (hne : k.path ≠ []) (heven : k.path.length % 2 = 0)
    (hseg : ∀ s ∈ k.path, '/' ∉ s.data)
    (hp : '/' ∉ d.projectId.data) (hdb : '/' ∉ d.databaseId.data) :
    Serializer.DecodeKey d Reader.init (Serializer.EncodeKey d k) =
      (Reader.init, k) := by
  rcases k with ⟨kp⟩
  simp only at hne heven hseg
  have henc : Serializer.EncodeKey d ⟨kp⟩ =
      ResourcePath.canonicalString ("projects" :: d.projectId ::
        "databases" :: d.databaseId :: "documents" :: kp) := rfl
  have hsplit : ResourcePath.fromString (Serializer.EncodeKey d ⟨kp⟩) =
      "projects" :: d.projectId :: "databases" :: d.databaseId ::
        "documents" :: kp := by
    rw [henc]
    refine fromString_canonical
      ("projects" :: d.projectId :: "databases" :: d.databaseId ::
        "documents" :: kp) (by simp) ?_
    intro s hs
    simp only [List.mem_cons] at hs
    rcases hs with rfl | rfl | rfl | rfl | rfl | hs
    · decide
    · exact hp
    · decide
    · exact hdb
    · decide
    · exact hseg s hs
  have hvalid : IsValidResourceName
      ("projects" :: d.projectId :: "databases" :: d.databaseId ::
        "documents" :: kp) = true := by
    simp only [IsValidResourceName, List.length_cons, List.getD_cons_zero,
      List.getD_cons_succ, Bool.and_eq_true, beq_self_eq_true,
      decide_eq_true_eq, and_true]
    omega
  have h1 : DecodeResourceName Reader.init (Serializer.EncodeKey d ⟨kp⟩) =
      (Reader.init,
        "projects" :: d.projectId :: "databases" :: d.databaseId ::
          "documents" :: kp) := by
    rw [DecodeResourceName, hsplit, hvalid]
    simp
  have hlen5 : ¬ ("projects" :: d.projectId :: "databases" :: d.databaseId ::
      "documents" :: kp).length < 5 := by
    simp only [List.length_cons]
    omega
  have hle4 : ¬ ("projects" :: d.projectId :: "databases" :: d.databaseId ::
      "documents" :: kp).length ≤ 4 := by
    simp only [List.length_cons]
    omega
  have hdoc : DocumentKey.IsDocumentKey kp = true := by
    rw [DocumentKey.IsDocumentKey, heven]
    cases kp with
    | nil => exact absurd rfl hne
    | cons a l => rfl
  have e1 : ("projects" :: d.projectId :: "databases" :: d.databaseId ::
      "documents" :: kp).getD 1 "" = d.projectId := rfl
  have e3 : ("projects" :: d.projectId :: "databases" :: d.databaseId ::
      "documents" :: kp).getD 3 "" = d.databaseId := rfl
  have e4 : ("projects" :: d.projectId :: "databases" :: d.databaseId ::
      "documents" :: kp).getD 4 "" = "documents" := rfl
  have edrop : ("projects" :: d.projectId :: "databases" :: d.databaseId ::
      "documents" :: kp).drop 5 = kp := rfl
  have hcond : (decide (("projects" :: d.projectId :: "databases" ::
        d.databaseId :: "documents" :: kp).length ≤ 4) ||
      (("projects" :: d.projectId :: "databases" :: d.databaseId ::
        "documents" :: kp).getD 4 "" != "documents")) = false := by
    rw [decide_eq_false hle4, e4, bne_self_eq_false, Bool.or_self]
  have eext : ExtractLocalPathFromResourceName Reader.init
      ("projects" :: d.projectId :: "databases" :: d.databaseId ::
        "documents" :: kp) = (Reader.init, kp) := by
    rw [ExtractLocalPathFromResourceName]
    simp only [hcond, Bool.false_eq_true, if_false, edrop]
  have etail : decodeKeyTail Reader.init
      ("projects" :: d.projectId :: "databases" :: d.databaseId ::
        "documents" :: kp) = (Reader.init, ⟨kp⟩) := by
    rw [decodeKeyTail, eext]
    simp only [hdoc, Bool.not_true, Bool.false_eq_true, if_false]
    rfl
  rw [Serializer.DecodeKey, h1]
  simp only [hlen5, if_false, e1, e3, ne_eq, not_true_eq_false, ite_false,
    ite_true, etail]

/-- Witness for C3 at the key `["coll", "doc"]` in database ("p", "d"). -/
theorem c3_key_roundtrip_witness :
    Serializer.DecodeKey ⟨"p", "d"⟩ Reader.init
        (Serializer.EncodeKey ⟨"p", "d"⟩ ⟨["coll", "doc"]⟩) =
      (Reader.init, ⟨["coll", "doc"]⟩) :=
  c3_key_roundtrip ⟨"p", "d"⟩ ⟨["coll", "doc"]⟩ (by decide) (by decide)
    (by decide) (by decide) (by decide)

theorem status_isOk_false (r : Reader) (m : String) (h : r.status = some m) :
    r.isOk = false := by
  cases r with
  | mk st => cases st <;> simp_all [Reader.isOk]

theorem extract_keeps_failure (r : Reader) (res : List String) (m : String)
    (hm : r.status = some m) :
    (ExtractLocalPathFromResourceName r res).1.status = some m := by
  rw [ExtractLocalPathFromResourceName]
  split
  · exact Reader.status_fail_of_failed _ _ m hm
  · exact hm

theorem decodeKeyTail_failed (r2 : Reader) (res : List String) (m : String)
    (hm : r2.status = some m) :
    (decodeKeyTail r2 res).1.isOk = false ∧
    (decodeKeyTail r2 res).1.status = some m ∧
    (decodeKeyTail r2 res).2 = ⟨[]⟩ := by
  have hex := extract_keeps_failure r2 res m hm
  have hr4 : (if !DocumentKey.IsDocumentKey
        (ExtractLocalPathFromResourceName r2 res).2 then
      (ExtractLocalPathFromResourceName r2 res).1.fail
        (invalidDocKeyMsg (ResourcePath.canonicalString
          (ExtractLocalPathFromResourceName r2 res).2))
    else (ExtractLocalPathFromResourceName r2 res).1).status = some m := by
    split
    · exact Reader.status_fail_of_failed _ _ m hex
    · exact hex
  have hok := status_isOk_false _ m hr4
  have heq : decodeKeyTail r2 res =
      (if !DocumentKey.IsDocumentKey
          (ExtractLocalPathFromResourceName r2 res).2 then
        (ExtractLocalPathFromResourceName r2 res).1.fail
          (invalidDocKeyMsg (ResourcePath.canonicalString
            (ExtractLocalPathFromResourceName r2 res).2))
      else (ExtractLocalPathFromResourceName r2 res).1, (⟨[]⟩ : DocumentKey))
      := by
    rw [decodeKeyTail]
    simp only [hok, Bool.false_eq_true, if_false]
  rw [heq]
  exact ⟨hok, hr4, rfl⟩

/-- C4: for every resource name whose parsed form is a valid resource name of
at least 5 segments but whose project segment differs from the bound project
id or whose database segment differs from the bound database id, `DecodeKey`
fails — the reader carries the mismatch message naming expected and found —
and the empty DocumentKey is returned instead of one carrying the foreign
path. -/
theorem c4_mismatch (d : DatabaseId) (name : String)
    (hvalid : IsValidResourceName (ResourcePath.fromString name) = true)
    (hlen : 5 ≤ (ResourcePath.fromString name).length)
    (hmis : (ResourcePath.fromString name).getD 1 "" ≠ d.projectId ∨
        (ResourcePath.fromString name).getD 3 "" ≠ d.databaseId) :
    (Serializer.DecodeKey d Reader.init name).1.isOk = false ∧
    (Serializer.DecodeKey d Reader.init name).1.status =
      some (if (ResourcePath.fromString name).getD 1 "" ≠ d.projectId then
          projectMismatchMsg d.projectId
            ((ResourcePath.fromString name).getD 1 "") name
        else databaseMismatchMsg d.databaseId
            ((ResourcePath.fromString name).getD 3 "") name) ∧
    (Serializer.DecodeKey d Reader.init name).2 = ⟨[]⟩ := by
  have h1 : DecodeResourceName Reader.init name =
      (Reader.init, ResourcePath.fromString name) := by
    rw [DecodeResourceName, hvalid]
    simp
  have hnlt : ¬ (ResourcePath.fromString name).length < 5 := not_lt.mpr hlen
  have hkey : Serializer.DecodeKey d Reader.init name =
      decodeKeyTail
        (if (ResourcePath.fromString name).getD 1 "" ≠ d.projectId then
          Reader.init.fail (projectMismatchMsg d.projectId
            ((ResourcePath.fromString name).getD 1 "") name)
        else if (ResourcePath.fromString name).getD 3 "" ≠ d.databaseId then
          Reader.init.fail (databaseMismatchMsg d.databaseId
            ((ResourcePath.fromString name).getD 3 "") name)
        else Reader.init)
        (ResourcePath.fromString name) := by
    rw [Serializer.DecodeKey, h1]
    simp only [hnlt, if_false, ite_false]
  by_cases hp1 : (ResourcePath.fromString name).getD 1 "" ≠ d.projectId
  · rw [if_pos hp1] at hkey
    have happ := decodeKeyTail_failed
      (Reader.init.fail (projectMismatchMsg d.projectId
        ((ResourcePath.fromString name).getD 1 "") name))
      (ResourcePath.fromString name)
      (projectMismatchMsg d.projectId
        ((ResourcePath.fromString name).getD 1 "") name)
      (by rw [Reader.fail_of_ok Reader.init _ rfl])
    rw [hkey, if_pos hp1]
    exact ⟨happ.1, happ.2.1, happ.2.2⟩
  · have hp3 : (ResourcePath.fromString name).getD 3 "" ≠ d.databaseId :=
      hmis.resolve_left hp1
    rw [if_neg hp1, if_pos hp3] at hkey
    have happ := decodeKeyTail_failed
      (Reader.init.fail (databaseMismatchMsg d.databaseId
        ((ResourcePath.fromString name).getD 3 "") name))
      (ResourcePath.fromString name)
      (databaseMismatchMsg d.databaseId
        ((ResourcePath.fromString name).getD 3 "") name)
      (by rw [Reader.fail_of_ok Reader.init _ rfl])
    rw [hkey, if_neg hp1]
    exact ⟨happ.1, happ.2.1, happ.2.2⟩

/-- Witness for C4: a name from project "other" decoded under database
("p", "db") fails with the project-mismatch message and yields the empty
key. -/
theorem c4_mismatch_witness :
    (Serializer.DecodeKey ⟨"p", "db"⟩ Reader.init
        "projects/other/databases/db/documents/coll/doc").1.isOk = false ∧
    (Serializer.DecodeKey ⟨"p", "db"⟩ Reader.init
        "projects/other/databases/db/documents/coll/doc").1.status =
      some (projectMismatchMsg "p" "other"
        "projects/other/databases/db/documents/coll/doc") ∧
    (Serializer.DecodeKey ⟨"p", "db"⟩ Reader.init
        "projects/other/databases/db/documents/coll/doc").2 = ⟨[]⟩ := by
  have happ := c4_mismatch ⟨"p", "db"⟩
    "projects/other/databases/db/documents/coll/doc"
    (by decide) (by decide) (Or.inl (by decide))
  refine ⟨happ.1, ?_, happ.2.2⟩
  rw [happ.2.1]
  rfl

end Firestore
